import Mathlib

/-!
Shallow embedding of the changelog engine of the iwmywn-release repository
(file holding the changelog builder: delimiters, the commit-log parser
convertStringToLog, the section builder buildSection, the item renderer
buildItems, the deduplicating footer builder buildFooter, and the
assembler buildChangelog).

Strings are modelled as Lean strings; the JavaScript text primitives used
by the source (String.prototype.split, trim, includes, toLowerCase,
replace with a string pattern, and the title regular expression) are
embedded below as executable functions on lists of characters, following
ECMAScript semantics.  The external collaborators (git log retrieval and
owner/repo resolution) are modelled as parameters: the engine is a pure
function from the raw log blob (and the owner/repo identity used for link
rendering) to the final markdown string.  A JavaScript TypeError (reading
a property of undefined) is modelled by returning Except.error.
-/

/-! ## JavaScript text primitives -/

/-- Character class of the ECMAScript whitespace escape used by the
source regular expression and by String.prototype.trim. -/
def isJsSpace (c : Char) : Bool :=
  c = ' ' || c = '\t' || c = '\n' || c = '\r' ||
  c.val = 0x0b || c.val = 0x0c || c.val = 0xa0 ||
  c.val = 0x1680 || (0x2000 <= c.val && c.val <= 0x200a) ||
  c.val = 0x2028 || c.val = 0x2029 || c.val = 0x202f || c.val = 0x205f ||
  c.val = 0x3000 || c.val = 0xfeff

/-- Character class of the ECMAScript word escape (ASCII letters, digits,
underscore), used for the type token of the title grammar. -/
def isWordChar (c : Char) : Bool :=
  ('a' ≤ c && c ≤ 'z') || ('A' ≤ c && c ≤ 'Z') ||
  ('0' ≤ c && c ≤ '9') || c = '_'

/-- Character class of the ECMAScript dot (any character other than a
line terminator), used for the message part of the title grammar. -/
def isDotChar (c : Char) : Bool :=
  !(c = '\n' || c = '\r' || c.val = 0x2028 || c.val = 0x2029)

/-- Maximal run of characters satisfying a class at the front of a list,
together with the rest of the list. -/
def takeRun (p : Char → Bool) : List Char → List Char × List Char
  | [] => ([], [])
  | c :: cs =>
    if p c then
      let r := takeRun p cs
      (c :: r.1, r.2)
    else ([], c :: cs)

/-- Fuel-indexed splitter core: the fuel dominates the input length, and
each step consumes at least one character, so the zero-fuel fallback is
never reached from splitChars below.  The fuel makes the recursion
structural, so concrete inputs evaluate inside the kernel. -/
def splitCharsFuel (delim : List Char) : Nat → List Char → List (List Char)
  | _, [] => [[]]
  | 0, l => [l]
  | fuel + 1, c :: cs =>
    if delim ≠ [] ∧ delim.isPrefixOf (c :: cs) then
      [] :: splitCharsFuel delim fuel ((c :: cs).drop delim.length)
    else
      match splitCharsFuel delim fuel cs with
      | [] => [[c]]
      | hgroup :: t => (c :: hgroup) :: t

/-- Splitter for JavaScript String.prototype.split with a non-empty
separator: leftmost, non-overlapping occurrences; a trailing separator
yields a trailing empty chunk. -/
def splitChars (delim : List Char) (l : List Char) : List (List Char) :=
  splitCharsFuel delim l.length l

/-- Embedding of JavaScript split on a string separator. -/
def jsSplit (s sep : String) : List String :=
  (splitChars sep.data s.data).map String.mk

/-- Embedding of JavaScript String.prototype.trim. -/
def jsTrim (s : String) : String :=
  String.mk (((s.data.dropWhile isJsSpace).reverse.dropWhile isJsSpace).reverse)

/-- Embedding of JavaScript String.prototype.toLowerCase (faithful on the
ASCII range, which is all the source compares). -/
def jsToLower (s : String) : String :=
  String.mk (s.data.map Char.toLower)

/-- Substring test on character lists, used to embed JavaScript
String.prototype.includes. -/
def strContainsAux (pat : List Char) : List Char → Bool
  | [] => pat.isEmpty
  | c :: cs => pat.isPrefixOf (c :: cs) || strContainsAux pat cs

/-- Embedding of JavaScript String.prototype.includes. -/
def strContains (s pat : String) : Bool :=
  strContainsAux pat.data s.data

/-- Replacement of the first occurrence of a non-empty pattern, the
behaviour of JavaScript String.prototype.replace with a string pattern. -/
def replaceFirstAux (pat repl : List Char) : List Char → List Char
  | [] => []
  | c :: cs =>
    if pat.isPrefixOf (c :: cs) then repl ++ (c :: cs).drop pat.length
    else c :: replaceFirstAux pat repl cs

/-- Embedding of JavaScript String.prototype.replace with a string
pattern (first occurrence only). -/
def jsReplaceFirst (s pat repl : String) : String :=
  String.mk (replaceFirstAux pat.data repl.data s.data)

/-- Boolean string prefix test used by the theorem statements. -/
def strStartsWith (p s : String) : Bool :=
  p.data.isPrefixOf s.data

/-! ## Data model -/

/-- Hash pair of a commit, as in the CommitHash interface of the source. -/
structure CommitHash where
  short : String
  full : String
deriving DecidableEq

/-- Parsed commit record, as in the LogItem interface of the source.  The
optional scope field is an undefined-able capture group in the source. -/
structure LogItem where
  hashes : List CommitHash
  type : String
  scope : Option String
  message : String
  usernames : List String
  prs : List String
  body : String
deriving DecidableEq

/-- Result of a successful match of the title grammar: the five capture
groups of the source regular expression. -/
structure TitleMatch where
  type : String
  scope : Option String
  message : String
  username : Option String
  pr : Option String
deriving DecidableEq

/-- Entry delimiter constant of the source. -/
def lineDelimiter : String :=
  "thisismylinedelimiterthatwilldefinitelynotappearintheactualcommitmessage"

/-- Field delimiter constant of the source. -/
def logDelimiter : String :=
  "thisismylogdelimiterthatwilldefinitelynotappearintheactualcommitmessage"

/-! ## Title grammar

The source parses each title with the anchored regular expression
matching: a word-character type token, an optional parenthesised scope,
a colon and one-or-more whitespace, a lazy one-or-more message, an
optional whitespace-then-parenthesised at-sign username group, an
optional whitespace-then-parenthesised hash-sign PR group, then end of
input.  The functions below implement exactly the backtracking order of
the ECMAScript engine on this pattern; the places where greedy runs are
forced (a maximal character-class run followed by a mandatory character
outside the class) are computed directly. -/

/-- Matcher for the optional username group: any whitespace, an opening
parenthesis, an at sign, one or more non-closing-parenthesis characters,
a closing parenthesis.  Returns the captured text and the rest. -/
def matchUserGroup (cs : List Char) : Option (String × List Char) :=
  let r1 := (takeRun isJsSpace cs).2
  match r1 with
  | '(' :: '@' :: r2 =>
    let run := takeRun (fun c => !(c = ')')) r2
    match run.1, run.2 with
    | [], _ => none
    | inner, ')' :: r4 => some (String.mk ('@' :: inner), r4)
    | _, _ => none
  | _ => none

/-- Matcher for the optional PR group: one or more whitespace characters,
an opening parenthesis, a hash sign, one or more non-closing-parenthesis
characters, a closing parenthesis. -/
def matchPrGroup (cs : List Char) : Option (String × List Char) :=
  let ws := takeRun isJsSpace cs
  if ws.1 = [] then none
  else
    match ws.2 with
    | '(' :: '#' :: r2 =>
      let run := takeRun (fun c => !(c = ')')) r2
      match run.1, run.2 with
      | [], _ => none
      | inner, ')' :: r4 => some (String.mk ('#' :: inner), r4)
      | _, _ => none
    | _ => none

/-- Tail of the title after the message: optional PR group, then end of
input; the engine prefers the group present and falls back to absent. -/
def matchAfterUser (cs : List Char) : Option (Option String) :=
  (match matchPrGroup cs with
   | some (p, r) => if r = [] then some (some p) else none
   | none => none).orElse
    (fun _ => if cs = [] then some (none : Option String) else none)

/-- Tail of the title after the message: optional username group then
the PR-group tail, preferring the username group present. -/
def matchAfterMsg (cs : List Char) : Option (Option String × Option String) :=
  (match matchUserGroup cs with
   | some (u, r) => (matchAfterUser r).map (fun p => (some u, p))
   | none => none).orElse
    (fun _ => (matchAfterUser cs).map (fun p => ((none : Option String), p)))

/-- Lazy message search: the message grows one character at a time within
the maximal run of dot-class characters, shortest first. -/
def matchMsgTail (cs : List Char) : Option (String × Option String × Option String) :=
  (List.range' 1 ((takeRun isDotChar cs).1.length)).findSome? fun k =>
    (matchAfterMsg (cs.drop k)).map fun up => (String.mk (cs.take k), up.1, up.2)

/-- Descending list n, n-1, ..., 1 of candidate whitespace-run lengths
for the greedy one-or-more whitespace after the colon. -/
def descList : Nat → List Nat
  | 0 => []
  | n + 1 => (n + 1) :: descList n

/-- Tail of the title after the colon: greedy one-or-more whitespace
(longest first), then the lazy message and the optional groups. -/
def matchTail (cs : List Char) : Option (String × Option String × Option String) :=
  (descList ((takeRun isJsSpace cs).1.length)).findSome? fun w =>
    matchMsgTail (cs.drop w)

/-- Matcher for the whole anchored title grammar of the source.  The type
token is the maximal word-character run (shorter splits cannot be followed
by an opening parenthesis or a colon); the scope branch is forced by the
character following the type token. -/
def matchTitle (title : String) : Option TitleMatch :=
  let cs := title.data
  let tyRun := takeRun isWordChar cs
  if tyRun.1 = [] then none
  else
    match tyRun.2 with
    | '(' :: r2 =>
      let run := takeRun (fun c => !(c = ')')) r2
      (match run.1, run.2 with
       | [], _ => none
       | inner, ')' :: ':' :: r4 =>
         (matchTail r4).map fun mup =>
           ⟨String.mk tyRun.1, some (String.mk inner), mup.1, mup.2.1, mup.2.2⟩
       | _, _ => none)
    | ':' :: r4 =>
      (matchTail r4).map fun mup =>
        ⟨String.mk tyRun.1, none, mup.1, mup.2.1, mup.2.2⟩
    | _ => none

/-! ## Commit parser -/

/-- Loop body of convertStringToLog: the source iterates over the chunks
of the entry-delimiter split, skips chunks that are exactly empty or a
single line terminator, splits each remaining chunk on the field
delimiter and trims each field, matches the title, and accumulates the
parsed records and the distinct non-bot committers.  Accessing the title
field of a chunk with fewer than three fields is the JavaScript TypeError
on undefined, modelled as Except.error. -/
def convertAux : List String → List LogItem → List String →
    Except String (List LogItem × List String)
  | [], log, committers => .ok (log, committers)
  | line :: rest, log, committers =>
    if line = "" || line = "\r" || line = "\n" then
      convertAux rest log committers
    else
      match (jsSplit line logDelimiter).map jsTrim with
      | hash :: shortHash :: title :: tailFields =>
        match matchTitle title with
        | none => convertAux rest log committers
        | some m =>
          let body := tailFields.head?
          let committer := tailFields.get? 1
          let usernames := match m.username with
            | some u => jsSplit u ", "
            | none => []
          let prs := match m.pr with
            | some p => jsSplit p ", "
            | none => []
          let committers' := match committer with
            | some c =>
              if c ≠ "" ∧ ¬ committers.contains c ∧
                  ¬ strContains (jsToLower c) "github" = true then
                committers ++ [c]
              else committers
            | none => committers
          let log' := if m.type ≠ "" ∧ m.message ≠ "" then
              log ++ [⟨[⟨shortHash, hash⟩], m.type, m.scope, m.message,
                       usernames, prs, body.getD ""⟩]
            else log
          convertAux rest log' committers'
      | _ =>
        .error "TypeError: Cannot read properties of undefined (reading match)"

/-- Embedding of convertStringToLog of the source: fold over the split
log blob accumulating records and committers. -/
def convertStringToLog (logString : List String) :
    Except String (List LogItem × List String) :=
  convertAux logString [] []

/-! ## Renderers -/

/-- Display titles of the three user-facing categories, the titles record
of the source. -/
inductive SectionType
  | feat
  | impr
  | fix
deriving DecidableEq

/-- Key string of a user-facing category, as used for the type-equality
filter of buildSection. -/
def SectionType.key : SectionType → String
  | .feat => "feat"
  | .impr => "impr"
  | .fix => "fix"

/-- Display-name mapping of the titles record of the source. -/
def titles : SectionType → String
  | .feat => "Features"
  | .impr => "Improvements"
  | .fix => "Bug Fixes"

/-- Recognized conventional change-type vocabulary, the CommitTypes
union of the source. -/
def recognizedTypes : List String :=
  ["feat", "impr", "fix", "docs", "refactor", "perf", "test", "build",
   "ci", "style", "chore", "revert"]

/-- Embedding of getPrLink of the source, parameterized by the owner and
repository identity supplied by the external collaborator. -/
def getPrLink (owner repo pr : String) : String :=
  let prNum := jsReplaceFirst pr "#" ""
  "[#" ++ prNum ++ "](https://github.com/" ++ owner ++ "/" ++ repo ++
    "/pull/" ++ prNum ++ ")"

/-- Embedding of getCommitLink of the source. -/
def getCommitLink (owner repo hash longHash : String) : String :=
  "[" ++ hash ++ "](https://github.com/" ++ owner ++ "/" ++ repo ++
    "/commit/" ++ longHash ++ ")"

/-- Loop body of buildItems of the source: one rendered list line per
record. -/
def buildItemLine (owner repo : String) (mergeTypeAndScope : Bool)
    (item : LogItem) : String :=
  let scope0 := match item.scope with
    | some s => "**" ++ s ++ ":** "
    | none => ""
  let scope := if mergeTypeAndScope then
      "**" ++ item.type ++
        (match item.scope with
         | some s => "(" ++ s ++ ")"
         | none => "") ++ ":** "
    else scope0
  let usernames := if item.usernames.length > 0 then
      " (" ++ String.intercalate ", " item.usernames ++ ")"
    else ""
  let pr := if item.prs.length > 0 then
      " (" ++ String.intercalate ", " (item.prs.map (getPrLink owner repo)) ++ ")"
    else ""
  let hash := " (" ++
    String.intercalate ", "
      (item.hashes.map fun h => getCommitLink owner repo h.short h.full) ++ ")"
  "- " ++ scope ++ item.message ++ usernames ++ pr ++ hash ++ "\n"

/-- Embedding of buildItems of the source: accumulate one line per
record, in order. -/
def buildItems (owner repo : String) (items : List LogItem)
    (mergeTypeAndScope : Bool) : String :=
  items.foldl (fun ret item => ret ++ buildItemLine owner repo mergeTypeAndScope item) ""

/-- Filter of buildSection of the source: records of the given
user-facing type whose body does not contain the internal-only marker. -/
def sectionItems (t : SectionType) (allItems : List LogItem) : List LogItem :=
  allItems.filter fun item =>
    item.type == t.key && !(strContains item.body "!nuf")

/-- Embedding of buildSection of the source. -/
def buildSection (owner repo : String) (t : SectionType)
    (allItems : List LogItem) : String :=
  let ret := "### " ++ titles t ++ "\n\n"
  let items := sectionItems t allItems
  if items.length = 0 then ""
  else ret ++ buildItems owner repo items false

/-- Head full hash of a record, the expression item.hashes[0].full of the
source read through an option (the source would throw on an empty hash
list; the parser only ever produces singleton hash lists, see the
invariant theorems below). -/
def fullHashHead (item : LogItem) : Option String :=
  item.hashes.head?.map CommitHash.full

/-- Concatenation, in the fixed source order, of the footer-eligible
record subsets: marked feat, marked impr, marked fix, then style, docs,
refactor, perf, ci, test, build, chore. -/
def allOtherLogs (logs : List LogItem) : List LogItem :=
  let featLogs := logs.filter fun item =>
    item.type == "feat" && strContains item.body "!nuf"
  let imprLogs := logs.filter fun item =>
    item.type == "impr" && strContains item.body "!nuf"
  let fixLogs := logs.filter fun item =>
    item.type == "fix" && strContains item.body "!nuf"
  let docLogs := logs.filter fun item => item.type == "docs"
  let refactorLogs := logs.filter fun item => item.type == "refactor"
  let perfLogs := logs.filter fun item => item.type == "perf"
  let testLogs := logs.filter fun item => item.type == "test"
  let buildLogs := logs.filter fun item => item.type == "build"
  let ciLogs := logs.filter fun item => item.type == "ci"
  let styleLogs := logs.filter fun item => item.type == "style"
  let choreLogs := logs.filter fun item => item.type == "chore"
  featLogs ++ imprLogs ++ fixLogs ++ styleLogs ++ docLogs ++ refactorLogs ++
    perfLogs ++ ciLogs ++ testLogs ++ buildLogs ++ choreLogs

/-- First-occurrence filter of buildFooter of the source: the JavaScript
filter keeps the element at a position exactly when the first position
holding an element with the same head full hash is that position itself. -/
def keepFirstByHash (l : List LogItem) : List LogItem :=
  ((l.enum).filter fun p =>
    l.findIdx? (fun t => fullHashHead t == fullHashHead p.2) == some p.1).map Prod.snd

/-- Deduplicated footer-record list of buildFooter of the source. -/
def uniqueOtherLogs (logs : List LogItem) : List LogItem :=
  keepFirstByHash (allOtherLogs logs)

/-- Embedding of buildFooter of the source. -/
def buildFooter (owner repo : String) (logs : List LogItem) : String :=
  if (uniqueOtherLogs logs).length > 0 then
    "### Nerd stuff\n\nThese changes will not be visible to users, but are included for completeness and to credit contributors.\n\n" ++
      buildItems owner repo (uniqueOtherLogs logs) true
  else ""

/-- Thank-you header constant of the source. -/
def header : String :=
  "Thank you to all the contributors who made this release possible!"

/-- Contributor count of buildChangelog of the source: the total number,
with multiplicity, of username annotations across all records whose
lowercased text is not exactly the bot name. -/
def contributorCount (log : List LogItem) : Nat :=
  ((log.map fun l => l.usernames.filter fun u => !(jsToLower u == "dependabot")).flatten).length

/-- Embedding of buildChangelog of the source, parameterized by the raw
log blob (produced externally by getLog) and the owner and repository
identity (produced externally by getOwnerAndRepo). -/
def buildChangelog (owner repo : String) (logString : String) :
    Except String String :=
  match convertStringToLog (jsSplit logString lineDelimiter) with
  | .error e => .error e
  | .ok (log, committers) =>
    let withHeader := if contributorCount log > 1 || committers.length > 1 then
        header ++ "\n\n"
      else ""
    let sections := ([SectionType.feat, SectionType.impr, SectionType.fix].map
      fun t => buildSection owner repo t log).filter fun s => s ≠ ""
    let withSections := withHeader ++ String.intercalate "\n" sections
    let footer := buildFooter owner repo log
    .ok (if footer ≠ "" then withSections ++ "\n" ++ footer else withSections)

/-! ## First-occurrence deduplication, recursion form

The JavaScript filter with findIndex used by buildFooter keeps exactly
the first occurrence of each head full hash.  The accumulator recursion
below is the proof device used to reason about keepFirstByHash; the
bridge lemma and the filter characterisation follow. -/

/-- Accumulator recursion equivalent to the first-occurrence filter: the
first component collects the records already scanned. -/
def dedupSeen : List LogItem → List LogItem → List LogItem
  | _, [] => []
  | pre, x :: xs =>
    if (pre.find? fun t => fullHashHead t == fullHashHead x).isSome then
      dedupSeen (pre ++ [x]) xs
    else
      x :: dedupSeen (pre ++ [x]) xs

theorem keepFirst_go_eq_dedupSeen (l pre : List LogItem) :
    ((List.enumFrom pre.length l).filter fun p =>
      (pre ++ l).findIdx? (fun t => fullHashHead t == fullHashHead p.2) == some p.1).map
        Prod.snd = dedupSeen pre l := by
  induction l generalizing pre with
  | nil => simp [dedupSeen]
  | cons x xs ih =>
    rw [List.enumFrom_cons, List.filter_cons]
    have hx : (fullHashHead x == fullHashHead x) = true := beq_self_eq_true _
    have htail := ih (pre ++ [x])
    have hlen : (pre ++ [x]).length = pre.length + 1 := by simp
    rw [hlen, ← List.append_cons] at htail
    by_cases hpre : (pre.find? fun t => fullHashHead t == fullHashHead x).isSome = true
    · -- an earlier record with the same hash exists: the head is dropped
      have hidx : ∃ j, List.findIdx? (fun t => fullHashHead t == fullHashHead x) pre = some j := by
        rcases List.find?_isSome.mp hpre with ⟨a, ha, hpa⟩
        have hs : (List.findIdx? (fun t => fullHashHead t == fullHashHead x) pre).isSome = true := by
          rw [List.findIdx?_isSome]
          exact List.any_eq_true.mpr ⟨a, ha, hpa⟩
        exact Option.isSome_iff_exists.mp hs
      rcases hidx with ⟨j, hj⟩
      have hjlt : j < pre.length := (List.findIdx?_eq_some_iff_findIdx_eq.mp hj).1
      have hcond :
          ((pre ++ x :: xs).findIdx? (fun t => fullHashHead t == fullHashHead x) ==
            some pre.length) = false := by
        rw [List.findIdx?_append, hj]
        simp only [Option.or]
        rw [beq_eq_false_iff_ne]
        intro hcontra
        have hje := Option.some.inj hcontra
        omega
      rw [hcond]
      simp only [dedupSeen, hpre, if_true, Bool.false_eq_true, if_false]
      exact htail
    · -- no earlier record with the same hash: the head survives
      have hnone : List.findIdx? (fun t => fullHashHead t == fullHashHead x) pre = none := by
        rcases h : List.findIdx? (fun t => fullHashHead t == fullHashHead x) pre with _ | j
        · rfl
        · exfalso
          rcases List.findIdx?_eq_some_iff_getElem.mp h with ⟨hlt, hp, _⟩
          exact hpre (List.find?_isSome.mpr ⟨pre[j], List.getElem_mem hlt, hp⟩)
      have hcond :
          ((pre ++ x :: xs).findIdx? (fun t => fullHashHead t == fullHashHead x) ==
            some pre.length) = true := by
        rw [List.findIdx?_append, hnone]
        simp [List.findIdx?_cons, hx]
      rw [hcond]
      simp only [dedupSeen, hpre, if_true, Bool.false_eq_true, if_false, List.map_cons]
      rw [htail]

theorem dedupSeen_filter (l : List LogItem) (pre : List LogItem) (k : Option String) :
    (dedupSeen pre l).filter (fun t => fullHashHead t == k) =
      if (pre.find? fun t => fullHashHead t == k).isSome then []
      else (l.find? fun t => fullHashHead t == k).toList := by
  induction l generalizing pre with
  | nil =>
    simp only [dedupSeen, List.filter_nil, List.find?_nil]
    by_cases hp : (pre.find? fun t => fullHashHead t == k).isSome = true <;> simp [hp]
  | cons x xs ih =>
    have hsplit : (pre ++ [x]).find? (fun t => fullHashHead t == k) =
        ((pre.find? fun t => fullHashHead t == k).or
          ([x].find? fun t => fullHashHead t == k)) := List.find?_append
    by_cases hk : fullHashHead x = k
    · -- the head carries the hash under scrutiny
      have hxk : (fullHashHead x == k) = true := beq_iff_eq.mpr hk
      by_cases hpre : (pre.find? fun t => fullHashHead t == fullHashHead x).isSome = true
      · have hpk : (pre.find? fun t => fullHashHead t == k).isSome = true := by
          rwa [hk] at hpre
        simp only [dedupSeen, hpre, if_true]
        rw [ih]
        have : ((pre ++ [x]).find? fun t => fullHashHead t == k).isSome = true := by
          rw [hsplit]
          rcases Option.isSome_iff_exists.mp hpk with ⟨a, ha⟩
          simp [ha]
        simp [this, hpk]
      · have hpk : (pre.find? fun t => fullHashHead t == k).isSome = false := by
          rw [← hk]
          simpa using hpre
        simp only [dedupSeen, hpre, Bool.false_eq_true, if_false, List.filter_cons, hxk,
          if_true]
        rw [ih]
        have hfull : ((pre ++ [x]).find? fun t => fullHashHead t == k).isSome = true := by
          rw [hsplit]
          rcases hfp : pre.find? fun t => fullHashHead t == k with _ | a
          · simp [List.find?_cons, hxk]
          · simp [hfp]
        simp only [hfull, if_true]
        simp [List.find?_cons, hxk, hpk]
    · -- the head does not carry the hash under scrutiny
      have hxk : (fullHashHead x == k) = false := by
        rw [beq_eq_false_iff_ne]
        exact hk
      have hstep : ((pre ++ [x]).find? fun t => fullHashHead t == k) =
          (pre.find? fun t => fullHashHead t == k) := by
        rw [hsplit]
        rcases hfp : pre.find? fun t => fullHashHead t == k with _ | a
        · simp [List.find?_cons, hxk]
        · simp [hfp]
      by_cases hpre : (pre.find? fun t => fullHashHead t == fullHashHead x).isSome = true
      · simp only [dedupSeen, hpre, if_true]
        rw [ih, hstep]
        simp [List.find?_cons, hxk]
      · simp only [dedupSeen, hpre, Bool.false_eq_true, if_false, List.filter_cons, hxk]
        rw [ih, hstep]
        simp [List.find?_cons, hxk]

/-- Master characterisation of the first-occurrence filter of buildFooter:
for any key, the records of the deduplicated list carrying that head full
hash are exactly the first record of the input carrying it. -/
theorem keepFirst_filter_eq (l : List LogItem) (k : Option String) :
    (keepFirstByHash l).filter (fun t => fullHashHead t == k) =
      (l.find? fun t => fullHashHead t == k).toList := by
  have hbridge := keepFirst_go_eq_dedupSeen l []
  simp only [List.nil_append, List.length_nil] at hbridge
  rw [keepFirstByHash, List.enum_eq_enumFrom, hbridge, dedupSeen_filter]
  simp

/-! ## Title grammar invariants -/

theorem takeRun_all (p : Char → Bool) (l : List Char) :
    ((takeRun p l).1).all p = true := by
  induction l with
  | nil => rfl
  | cons c cs ih =>
    by_cases hp : p c = true
    · simp [takeRun, hp, ih]
    · simp [takeRun, hp]

theorem takeRun_nil (p : Char → Bool) : takeRun p [] = ([], []) := rfl

theorem matchMsgTail_message_ne (cs : List Char) (m : String)
    (u pr : Option String) (h : matchMsgTail cs = some (m, u, pr)) :
    m ≠ "" := by
  rcases List.exists_of_findSome?_eq_some h with ⟨k, hk, hf⟩
  rcases List.mem_range'_1.mp hk with ⟨hk1, hk2⟩
  rcases Option.map_eq_some'.mp hf with ⟨up, _, hms⟩
  have hm : m = String.mk (cs.take k) := (congrArg Prod.fst hms).symm
  have hcs : cs ≠ [] := by
    intro hnil
    subst hnil
    rw [takeRun_nil] at hk2
    simp at hk2
    omega
  intro hempty
  rw [hm] at hempty
  have : cs.take k = [] := by
    have := congrArg String.data hempty
    simpa using this
  rcases List.take_eq_nil_iff.mp this with h0 | hnil
  · omega
  · exact hcs hnil

theorem matchTail_message_ne (cs : List Char) (m : String)
    (u pr : Option String) (h : matchTail cs = some (m, u, pr)) :
    m ≠ "" := by
  rcases List.exists_of_findSome?_eq_some h with ⟨w, _, hf⟩
  exact matchMsgTail_message_ne _ _ _ _ hf

theorem matchTitle_fields (title : String) (m : TitleMatch)
    (h : matchTitle title = some m) :
    m.type ≠ "" ∧ m.type.data.all isWordChar = true ∧ m.message ≠ "" := by
  have hall : ((takeRun isWordChar title.data).1).all isWordChar = true := takeRun_all _ _
  unfold matchTitle at h
  dsimp only at h
  split at h
  · exact absurd h (by simp)
  · rename_i hnil
    have hfin : ∀ (sc : Option String) (mup : String × Option String × Option String),
        m = ⟨String.mk (takeRun isWordChar title.data).1, sc, mup.1, mup.2.1, mup.2.2⟩ →
        mup.1 ≠ "" →
        m.type ≠ "" ∧ m.type.data.all isWordChar = true ∧ m.message ≠ "" := by
      intro sc mup hm hmsg
      subst hm
      refine ⟨?_, by simpa using hall, hmsg⟩
      intro hemp
      have := congrArg String.data hemp
      simp at this
      exact hnil this
    split at h
    · -- scope branch: inner match on the scope run
      split at h
      · exact absurd h (by simp)
      · rcases Option.map_eq_some'.mp h with ⟨mup, hmt, hm⟩
        exact hfin _ mup hm.symm (matchTail_message_ne _ _ _ _ hmt)
      · exact absurd h (by simp)
    · rcases Option.map_eq_some'.mp h with ⟨mup, hmt, hm⟩
      exact hfin _ mup hm.symm (matchTail_message_ne _ _ _ _ hmt)
    · exact absurd h (by simp)

/-! ## Parser invariants -/

/-- Record shape guaranteed by the parser: a singleton hash list and a
non-empty all-word-character type token. -/
def goodRecord (r : LogItem) : Prop :=
  (∃ hh, r.hashes = [hh]) ∧ r.type ≠ "" ∧ r.type.data.all isWordChar = true

theorem convertAux_records (lines : List String) (log : List LogItem)
    (cs : List String) (log' : List LogItem) (cs' : List String)
    (h : convertAux lines log cs = .ok (log', cs'))
    (hinv : ∀ r ∈ log, goodRecord r) :
    ∀ r ∈ log', goodRecord r := by
  induction lines generalizing log cs with
  | nil =>
    unfold convertAux at h
    simp only [Except.ok.injEq, Prod.mk.injEq] at h
    rw [← h.1]
    exact hinv
  | cons line rest ih =>
    unfold convertAux at h
    split at h
    · exact ih _ _ h hinv
    · split at h
      · -- at least three fields
        split at h
        · exact ih _ _ h hinv
        · rename_i mm hmm
          dsimp only at h
          refine ih _ _ h ?_
          intro r hr
          by_cases hP : mm.type ≠ "" ∧ mm.message ≠ ""
          · rw [if_pos hP] at hr
            rcases List.mem_append.mp hr with hold | hnew
            · exact hinv r hold
            · rcases List.mem_singleton.mp hnew with rfl
              rcases matchTitle_fields _ _ hmm with ⟨h1, h2, _⟩
              exact ⟨⟨_, rfl⟩, h1, h2⟩
          · rw [if_neg hP] at hr
            exact hinv r hr
      · exact absurd h (by simp)

theorem convertAux_mono (lines : List String) (log : List LogItem)
    (cs : List String) (log' : List LogItem) (cs' : List String)
    (h : convertAux lines log cs = .ok (log', cs')) :
    ∃ dl dc, log' = log ++ dl ∧ cs' = cs ++ dc ∧ (dl = [] → dc = []) := by
  induction lines generalizing log cs with
  | nil =>
    unfold convertAux at h
    simp only [Except.ok.injEq, Prod.mk.injEq] at h
    exact ⟨[], [], by simp [h.1.symm], by simp [h.2.symm], fun _ => rfl⟩
  | cons line rest ih =>
    unfold convertAux at h
    split at h
    · exact ih _ _ h
    · split at h
      · split at h
        · exact ih _ _ h
        · rename_i mm hmm
          dsimp only at h
          rcases matchTitle_fields _ _ hmm with ⟨h1, _, h3⟩
          rw [if_pos ⟨h1, h3⟩] at h
          rcases ih _ _ h with ⟨dl, dc, hdl, hdc, _⟩
          rw [List.append_assoc] at hdl
          split at hdc
          · split at hdc
            · rw [List.append_assoc] at hdc
              exact ⟨_, _, hdl, hdc, fun hfalse => absurd hfalse (by simp)⟩
            · exact ⟨_, _, hdl, hdc, fun hfalse => absurd hfalse (by simp)⟩
          · exact ⟨_, _, hdl, hdc, fun hfalse => absurd hfalse (by simp)⟩
      · exact absurd h (by simp)

/-! ## String-shape helpers -/

theorem isPrefixOf_append_self (l r : List Char) : l.isPrefixOf (l ++ r) = true := by
  induction l with
  | nil => simp [List.isPrefixOf]
  | cons c cs ih => simp [List.isPrefixOf, ih]

theorem strStartsWith_of_data (p s : String) (r : List Char)
    (hs : s.data = p.data ++ r) : strStartsWith p s = true := by
  unfold strStartsWith
  rw [hs]
  exact isPrefixOf_append_self _ _

theorem strStartsWith_head_false (p s : String) (c d : Char) (tp ts : List Char)
    (hp : p.data = c :: tp) (hs : s.data = d :: ts) (hne : c ≠ d) :
    strStartsWith p s = false := by
  unfold strStartsWith
  rw [hp, hs]
  simp [List.isPrefixOf, hne]

theorem strStartsWith_nil_false (p s : String) (c : Char) (tp : List Char)
    (hp : p.data = c :: tp) (hs : s.data = []) : strStartsWith p s = false := by
  unfold strStartsWith
  rw [hp, hs]
  rfl

theorem intercalate_go_data (sep : String) (as : List String) (acc : String) :
    ∃ r, (String.intercalate.go acc sep as).data = acc.data ++ r := by
  induction as generalizing acc with
  | nil => exact ⟨[], by simp [String.intercalate.go]⟩
  | cons a as ih =>
    have hstep : String.intercalate.go acc sep (a :: as) =
        String.intercalate.go (acc ++ sep ++ a) sep as := rfl
    rw [hstep]
    rcases ih (acc ++ sep ++ a) with ⟨r, hr⟩
    exact ⟨sep.data ++ a.data ++ r, by
      rw [hr]
      simp [String.data_append]⟩

theorem intercalate_cons_data (sep s : String) (ss : List String) :
    ∃ r, (String.intercalate sep (s :: ss)).data = s.data ++ r := by
  have : String.intercalate sep (s :: ss) = String.intercalate.go s sep ss := rfl
  rw [this]
  exact intercalate_go_data sep ss s

theorem buildSection_data (owner repo : String) (t : SectionType)
    (logs : List LogItem) :
    buildSection owner repo t logs = "" ∨
      ∃ r, (buildSection owner repo t logs).data = '#' :: r := by
  unfold buildSection
  by_cases hlen : (sectionItems t logs).length = 0
  · left
    rw [if_pos hlen]
  · right
    rw [if_neg hlen]
    refine ⟨("## " ++ titles t ++ "\n\n").data ++
      (buildItems owner repo (sectionItems t logs) false).data, ?_⟩
    rw [String.data_append]
    have : ("### " ++ titles t ++ "\n\n").data =
        '#' :: ("## " ++ titles t ++ "\n\n").data := rfl
    rw [this]
    rfl

theorem header_data_cons :
    header.data = 'T' ::
      "hank you to all the contributors who made this release possible!".data := rfl

theorem header_not_prefix_of_cold (owner repo : String) (log : List LogItem)
    (inter : String)
    (hinter : inter = String.intercalate "\n"
      (([SectionType.feat, SectionType.impr, SectionType.fix].map
        fun t => buildSection owner repo t log).filter fun s => s ≠ ""))
    (footer : String) :
    strStartsWith header
      (if footer ≠ "" then ("" ++ inter) ++ "\n" ++ footer else "" ++ inter) = false := by
  rcases hsec : ([SectionType.feat, SectionType.impr, SectionType.fix].map
      fun t => buildSection owner repo t log).filter (fun s => s ≠ "") with _ | ⟨s, ss⟩
  · -- no sections survive: the output is empty or starts with a newline
    rw [hsec] at hinter
    have hinter0 : inter = "" := by rw [hinter]; rfl
    subst hinter0
    by_cases hfoot : footer ≠ ""
    · rw [if_pos hfoot]
      refine strStartsWith_head_false _ _ 'T' '\n' _ footer.data header_data_cons ?_ (by decide)
      simp [String.data_append]
    · rw [if_neg hfoot]
      refine strStartsWith_nil_false _ _ 'T' _ header_data_cons ?_
      simp [String.data_append]
  · -- some section survives: the output starts with a hash mark
    have hmem : s ∈ ([SectionType.feat, SectionType.impr, SectionType.fix].map
        fun t => buildSection owner repo t log).filter (fun s => s ≠ "") := by
      rw [hsec]; exact List.mem_cons_self _ _
    rcases List.mem_filter.mp hmem with ⟨hmap, hne⟩
    have hsne : s ≠ "" := by simpa using hne
    rcases List.mem_map.mp hmap with ⟨t, _, hst⟩
    rcases buildSection_data owner repo t log with h0 | ⟨r, hr⟩
    · rw [hst] at h0; exact absurd h0 hsne
    · rw [hst] at hr
      rw [hsec] at hinter
      rcases intercalate_cons_data "\n" s ss with ⟨r2, hr2⟩
      rw [hr] at hr2
      rw [← hinter] at hr2
      by_cases hfoot : footer ≠ ""
      · rw [if_pos hfoot]
        refine strStartsWith_head_false _ _ 'T' '#' _
          ((r ++ r2) ++ '\n' :: footer.data) header_data_cons ?_ (by decide)
        simp [String.data_append, hr2]
      · rw [if_neg hfoot]
        refine strStartsWith_head_false _ _ 'T' '#' _ (r ++ r2) header_data_cons ?_
          (by decide)
        simp [String.data_append, hr2]

/-- C3 (amended): buildChangelog emits the thank-you header exactly when
the multiplicity-counted non-bot username annotations exceed one or the
collected distinct committers exceed one. -/
theorem c3_header_iff (owner repo logString : String)
    (log : List LogItem) (committers : List String)
    (h : convertStringToLog (jsSplit logString lineDelimiter) = .ok (log, committers)) :
    ∃ out, buildChangelog owner repo logString = .ok out ∧
      (strStartsWith header out = true ↔
        (1 < contributorCount log ∨ 1 < committers.length)) := by
  unfold buildChangelog
  rw [h]
  dsimp only
  by_cases hcond : 1 < contributorCount log ∨ 1 < committers.length
  · have hbool : (decide (contributorCount log > 1) || decide (committers.length > 1)) = true := by
      rcases hcond with hc | hc <;> simp [hc]
    rw [if_pos hbool]
    refine ⟨_, rfl, ?_⟩
    refine ⟨fun _ => hcond, fun _ => ?_⟩
    by_cases hfoot : buildFooter owner repo log ≠ ""
    · rw [if_pos hfoot]
      refine strStartsWith_of_data _ _
        ("\n\n".data ++ (String.intercalate "\n"
          (([SectionType.feat, SectionType.impr, SectionType.fix].map
            fun t => buildSection owner repo t log).filter fun s => s ≠ "")).data ++
          "\n".data ++ (buildFooter owner repo log).data) ?_
      simp [String.data_append]
    · rw [if_neg hfoot]
      refine strStartsWith_of_data _ _
        ("\n\n".data ++ (String.intercalate "\n"
          (([SectionType.feat, SectionType.impr, SectionType.fix].map
            fun t => buildSection owner repo t log).filter fun s => s ≠ "")).data) ?_
      simp [String.data_append]
  · have hbool : ¬ ((decide (contributorCount log > 1) || decide (committers.length > 1)) = true) := by
      simp only [Bool.or_eq_true, decide_eq_true_eq]
      exact hcond
    rw [if_neg hbool]
    refine ⟨_, rfl, ?_⟩
    constructor
    · intro habs
      have hfalse := header_not_prefix_of_cold owner repo log _ rfl
        (buildFooter owner repo log)
      rw [habs] at hfalse
      exact absurd hfalse (by simp)
    · intro habs
      exact absurd habs hcond

/-! ## Claims on the parser -/

/-- C10: every record produced by the parser carries exactly one hash
pair, so the footer deduplication key hashes[0].full is the record's full
hash; the engine never merges records. -/
theorem c10_singleton_hashes (logString : List String) (log : List LogItem)
    (committers : List String)
    (h : convertStringToLog logString = .ok (log, committers)) :
    ∀ rec ∈ log, rec.hashes.length = 1 ∧
      ∃ hh, rec.hashes = [hh] ∧ fullHashHead rec = some hh.full := by
  intro rec hrec
  rcases convertAux_records _ _ _ _ _ h
    (fun r hr => absurd hr (List.not_mem_nil r)) rec hrec with ⟨⟨hh, hhash⟩, _, _⟩
  refine ⟨by rw [hhash]; rfl, hh, hhash, ?_⟩
  rw [fullHashHead, hhash]
  rfl

/-- Concrete log entry whose title carries the unrecognized type token
foo. -/
def c4Entry : String :=
  "H1" ++ logDelimiter ++ "h1" ++ logDelimiter ++ "foo: bar" ++ logDelimiter ++
    "" ++ logDelimiter ++ "Bob"

/-- Record parsed from the entry above. -/
def c4Record : LogItem :=
  ⟨[⟨"h1", "H1"⟩], "foo", none, "bar", [], [], ""⟩

set_option maxRecDepth 8000 in
theorem c10_singleton_hashes_witness :
    c4Record.hashes.length = 1 ∧
      ∃ hh, c4Record.hashes = [hh] ∧ fullHashHead c4Record = some hh.full :=
  c10_singleton_hashes [c4Entry] [c4Record] ["Bob"] (by rfl) c4Record
    (List.mem_singleton.mpr rfl)

/-- C4 (amended): every record the parser stores has a non-empty type
token made of word characters, but the type is not restricted to the
recognized vocabulary; only an entry whose title fails the grammar is
dropped. -/
theorem c4_type_word_token (logString : List String) (log : List LogItem)
    (committers : List String)
    (h : convertStringToLog logString = .ok (log, committers)) :
    ∀ rec ∈ log, rec.type ≠ "" ∧ rec.type.data.all isWordChar = true := by
  intro rec hrec
  rcases convertAux_records _ _ _ _ _ h
    (fun r hr => absurd hr (List.not_mem_nil r)) rec hrec with ⟨_, h1, h2⟩
  exact ⟨h1, h2⟩

set_option maxRecDepth 8000 in
theorem c4_type_word_token_witness :
    c4Record.type ≠ "" ∧ c4Record.type.data.all isWordChar = true :=
  c4_type_word_token [c4Entry] [c4Record] ["Bob"] (by rfl) c4Record
    (List.mem_singleton.mpr rfl)

set_option maxRecDepth 8000 in
/-- C4 counterexample: a well-formed title with the unrecognized type
token foo is stored as a record with that type, not dropped. -/
theorem c4_counterexample :
    convertStringToLog [c4Entry] = .ok ([c4Record], ["Bob"]) ∧
      c4Record.type = "foo" ∧ "foo" ∉ recognizedTypes :=
  ⟨by rfl, rfl, by decide⟩

/-- C6: when no records parse, buildChangelog returns the empty string,
with no header, no sections, no footer and no error. -/
theorem c6_empty_output (owner repo logString : String) (committers : List String)
    (h : convertStringToLog (jsSplit logString lineDelimiter) = .ok ([], committers)) :
    buildChangelog owner repo logString = .ok "" := by
  rcases convertAux_mono _ _ _ _ _ h with ⟨dl, dc, hdl, hdc, himp⟩
  have hdl0 : dl = [] := by simpa using hdl.symm
  have hcs : committers = [] := by simpa [himp hdl0] using hdc
  subst hcs
  unfold buildChangelog
  rw [h]
  rfl

set_option maxRecDepth 8000 in
theorem c6_empty_output_witness : buildChangelog "o" "r" "" = .ok "" :=
  c6_empty_output "o" "r" "" [] (by rfl)

/-- C8 (amended): the parser skips exactly the chunks that are the empty
string or a bare carriage return or line feed, without trimming first;
any other chunk whose field split yields fewer than three fields, such as
a one-space chunk, makes the parser fail like the JavaScript TypeError on
the undefined title field. -/
theorem c8_skip_or_fail (line : String) :
    ((line = "" ∨ line = "\r" ∨ line = "\n") →
      convertStringToLog [line] = .ok ([], [])) ∧
    (line ≠ "" → line ≠ "\r" → line ≠ "\n" →
      ((jsSplit line logDelimiter).map jsTrim).length < 3 →
      convertStringToLog [line] =
        .error "TypeError: Cannot read properties of undefined (reading match)") := by
  constructor
  · rintro (rfl | rfl | rfl) <;> rfl
  · intro h1 h2 h3 hlen
    unfold convertStringToLog convertAux
    rw [if_neg (by simp [h1, h2, h3])]
    rcases hf : (jsSplit line logDelimiter).map jsTrim with _ | ⟨a, _ | ⟨b, _ | ⟨c, t⟩⟩⟩
    · rfl
    · rfl
    · rfl
    · rw [hf] at hlen
      simp at hlen
      omega

/-- C8 counterexample: the one-space chunk is whitespace-only, yet it is
not skipped; the parser fails on it like the JavaScript TypeError. -/
theorem c8_counterexample :
    jsTrim " " = "" ∧ (" " : String) ≠ "" ∧
    convertStringToLog [" "] =
      .error "TypeError: Cannot read properties of undefined (reading match)" :=
  ⟨rfl, by decide, by rfl⟩

/-- Raw log blob with two entries annotated with the same single
username and committed by the same committer. -/
def c3Blob : String :=
  lineDelimiter ++ "H1" ++ logDelimiter ++ "h1" ++ logDelimiter ++
    "feat: add x (@alice)" ++ logDelimiter ++ "" ++ logDelimiter ++ "Bob\n" ++
  lineDelimiter ++ "H2" ++ logDelimiter ++ "h2" ++ logDelimiter ++
    "fix: fix y (@alice)" ++ logDelimiter ++ "" ++ logDelimiter ++ "Bob"

/-- Records parsed from the blob above. -/
def c3Log : List LogItem :=
  [⟨[⟨"h1", "H1"⟩], "feat", none, "add x", ["@alice"], [], ""⟩,
   ⟨[⟨"h2", "H2"⟩], "fix", none, "fix y", ["@alice"], [], ""⟩]

/-- Committers collected from the blob above. -/
def c3Committers : List String := ["Bob"]

/-- Distinct non-bot usernames across records, counted as the claim
counts them (deduplicated), for comparison with the code's
multiplicity count. -/
def distinctNonBotUsernames (log : List LogItem) : List String :=
  ((log.map fun l =>
    l.usernames.filter fun u => !(jsToLower u == "dependabot")).flatten).dedup

set_option maxRecDepth 40000 in
/-- C3 counterexample: one distinct username on two commits and a single
committer, yet the thank-you header is emitted, because the code counts
username annotations with multiplicity. -/
theorem c3_counterexample :
    convertStringToLog (jsSplit c3Blob lineDelimiter) = .ok (c3Log, c3Committers) ∧
    (distinctNonBotUsernames c3Log).length = 1 ∧
    c3Committers.length = 1 ∧
    ∃ out, buildChangelog "o" "r" c3Blob = .ok out ∧ strStartsWith header out = true := by
  refine ⟨by rfl, by decide, by decide, ⟨_, rfl, by rfl⟩⟩

set_option maxRecDepth 40000 in
theorem c3_header_iff_witness :
    ∃ out, buildChangelog "o" "r" c3Blob = .ok out ∧
      (strStartsWith header out = true ↔
        (1 < contributorCount c3Log ∨ 1 < c3Committers.length)) :=
  c3_header_iff "o" "r" c3Blob c3Log c3Committers (by rfl)

/-! ## Claims on the renderers -/

theorem sectionType_key_inj (t1 t2 : SectionType) (h : t1.key = t2.key) :
    t1 = t2 := by
  cases t1 <;> cases t2 <;> first | rfl | exact absurd h (by decide)

/-- C5: a record whose type is outside the recognized vocabulary belongs
to no user-facing section filter and to no footer-eligible subset, so it
is rendered in none of buildChangelog's output blocks. -/
theorem c5_unrecognized_nowhere (logs : List LogItem) (rec : LogItem)
    (_hrec : rec ∈ logs) (htype : rec.type ∉ recognizedTypes) :
    (∀ t : SectionType, rec ∉ sectionItems t logs) ∧ rec ∉ allOtherLogs logs := by
  constructor
  · intro t hmem
    rcases List.mem_filter.mp hmem with ⟨_, hp⟩
    simp only [Bool.and_eq_true, beq_iff_eq] at hp
    apply htype
    rw [hp.1]
    cases t <;> decide
  · intro hmem
    simp only [allOtherLogs, List.mem_append, List.mem_filter, Bool.and_eq_true,
      beq_iff_eq] at hmem
    rcases hmem with (((((((((h | h) | h) | h) | h) | h) | h) | h) | h) | h) | h <;>
      first
        | exact htype (by rw [h.2.1]; decide)
        | exact htype (by rw [h.2]; decide)

theorem c5_unrecognized_nowhere_witness :
    (∀ t : SectionType,
      (⟨[⟨"h1", "H1"⟩], "wip", none, "m", [], [], ""⟩ : LogItem) ∉
        sectionItems t [⟨[⟨"h1", "H1"⟩], "wip", none, "m", [], [], ""⟩]) ∧
    (⟨[⟨"h1", "H1"⟩], "wip", none, "m", [], [], ""⟩ : LogItem) ∉
      allOtherLogs [⟨[⟨"h1", "H1"⟩], "wip", none, "m", [], [], ""⟩] :=
  c5_unrecognized_nowhere _ _ (List.mem_singleton.mpr rfl) (by decide)

/-- Concrete unmarked fix-type record. -/
def c7Record : LogItem :=
  ⟨[⟨"h1", "H1"⟩], "fix", none, "crash fixed", [], [], ""⟩

/-- C7 counterexample: the rendered fix section is titled Bug Fixes, not
Fixes. -/
theorem c7_counterexample :
    strStartsWith "### Fixes" (buildSection "o" "r" SectionType.fix [c7Record]) = false ∧
    buildSection "o" "r" SectionType.fix [c7Record] =
      "### Bug Fixes\n\n- crash fixed ([h1](https://github.com/o/r/commit/H1))\n" :=
  ⟨by rfl, by rfl⟩

/-- C7 (amended): the user-facing sections are titled Features,
Improvements and Bug Fixes, and a non-empty fix section starts with the
heading marks followed by Bug Fixes. -/
theorem c7_titles (owner repo : String) (logs : List LogItem)
    (hne : sectionItems SectionType.fix logs ≠ []) :
    titles SectionType.feat = "Features" ∧
    titles SectionType.impr = "Improvements" ∧
    titles SectionType.fix = "Bug Fixes" ∧
    strStartsWith "### Bug Fixes"
      (buildSection owner repo SectionType.fix logs) = true := by
  refine ⟨rfl, rfl, rfl, ?_⟩
  unfold buildSection
  rw [if_neg (by rw [List.length_eq_zero]; exact hne)]
  refine strStartsWith_of_data _ _
    ("\n\n".data ++
      (buildItems owner repo (sectionItems SectionType.fix logs) false).data) ?_
  have hlit : ("### " ++ titles SectionType.fix ++ "\n\n").data =
      "### Bug Fixes".data ++ "\n\n".data := rfl
  rw [String.data_append, hlit, List.append_assoc]

theorem c7_titles_witness :
    titles SectionType.feat = "Features" ∧
    titles SectionType.impr = "Improvements" ∧
    titles SectionType.fix = "Bug Fixes" ∧
    strStartsWith "### Bug Fixes"
      (buildSection "o" "r" SectionType.fix [c7Record]) = true :=
  c7_titles "o" "r" [c7Record] (by decide)

/-- C1: a user-facing-type record whose body contains the internal-only
marker is footer-eligible, the first record carrying its hash survives
the footer deduplication, the footer block carries the Nerd stuff
heading, and the record belongs to no user-facing section filter; a
user-facing-type record without the marker belongs exactly to the
section filter of its own category and is not footer-eligible. -/
theorem c1_marker_law (owner repo : String) (logs : List LogItem) (rec : LogItem)
    (hmem : rec ∈ logs)
    (huser : rec.type = "feat" ∨ rec.type = "impr" ∨ rec.type = "fix") :
    (strContains rec.body "!nuf" = true →
      rec ∈ allOtherLogs logs ∧
      (∃ r0, (allOtherLogs logs).find?
          (fun t => fullHashHead t == fullHashHead rec) = some r0 ∧
        r0 ∈ uniqueOtherLogs logs) ∧
      strStartsWith "### Nerd stuff" (buildFooter owner repo logs) = true ∧
      (∀ t : SectionType, rec ∉ sectionItems t logs)) ∧
    (strContains rec.body "!nuf" = false →
      (∃ t : SectionType, t.key = rec.type ∧ rec ∈ sectionItems t logs ∧
        ∀ t' : SectionType, rec ∈ sectionItems t' logs → t' = t) ∧
      rec ∉ allOtherLogs logs) := by
  constructor
  · intro hmark
    have hall : rec ∈ allOtherLogs logs := by
      simp only [allOtherLogs, List.mem_append, List.mem_filter, Bool.and_eq_true,
        beq_iff_eq]
      rcases huser with ht | ht | ht
      · exact Or.inl (Or.inl (Or.inl (Or.inl (Or.inl (Or.inl (Or.inl (Or.inl
          (Or.inl (Or.inl ⟨hmem, ht, hmark⟩)))))))))
      · exact Or.inl (Or.inl (Or.inl (Or.inl (Or.inl (Or.inl (Or.inl (Or.inl
          (Or.inl (Or.inr ⟨hmem, ht, hmark⟩)))))))))
      · exact Or.inl (Or.inl (Or.inl (Or.inl (Or.inl (Or.inl (Or.inl (Or.inl
          (Or.inr ⟨hmem, ht, hmark⟩))))))))
    have hsome : ((allOtherLogs logs).find?
        (fun t => fullHashHead t == fullHashHead rec)).isSome :=
      List.find?_isSome.mpr ⟨rec, hall, beq_self_eq_true _⟩
    rcases Option.isSome_iff_exists.mp hsome with ⟨r0, hr0⟩
    have hfilter := keepFirst_filter_eq (allOtherLogs logs) (fullHashHead rec)
    rw [hr0] at hfilter
    have hr0mem : r0 ∈ uniqueOtherLogs logs := by
      have : r0 ∈ (uniqueOtherLogs logs).filter
          (fun t => fullHashHead t == fullHashHead rec) := by
        rw [uniqueOtherLogs, hfilter]
        exact List.mem_singleton.mpr rfl
      exact (List.mem_filter.mp this).1
    refine ⟨hall, ⟨r0, hr0, hr0mem⟩, ?_, ?_⟩
    · unfold buildFooter
      rw [if_pos (List.length_pos.mpr (by
        intro hnil
        rw [hnil] at hr0mem
        exact absurd hr0mem (List.not_mem_nil r0)))]
      refine strStartsWith_of_data _ _
        (("\n\nThese changes will not be visible to users, but are included for completeness and to credit contributors.\n\n").data ++
          (buildItems owner repo (uniqueOtherLogs logs) true).data) ?_
      have hlit :
          ("### Nerd stuff\n\nThese changes will not be visible to users, but are included for completeness and to credit contributors.\n\n").data =
          "### Nerd stuff".data ++
            ("\n\nThese changes will not be visible to users, but are included for completeness and to credit contributors.\n\n").data := rfl
      rw [String.data_append, hlit, List.append_assoc]
    · intro t hmemS
      rcases List.mem_filter.mp hmemS with ⟨_, hp⟩
      simp only [Bool.and_eq_true, beq_iff_eq, Bool.not_eq_true'] at hp
      rw [hmark] at hp
      exact absurd hp.2 (by decide)
  · intro hunmark
    constructor
    · have hpick : ∃ t : SectionType, t.key = rec.type := by
        rcases huser with ht | ht | ht
        · exact ⟨SectionType.feat, ht.symm⟩
        · exact ⟨SectionType.impr, ht.symm⟩
        · exact ⟨SectionType.fix, ht.symm⟩
      rcases hpick with ⟨t, htk⟩
      refine ⟨t, htk, ?_, ?_⟩
      · refine List.mem_filter.mpr ⟨hmem, ?_⟩
        simp only [Bool.and_eq_true, beq_iff_eq, Bool.not_eq_true']
        exact ⟨htk.symm, hunmark⟩
      · intro t' hmemS
        rcases List.mem_filter.mp hmemS with ⟨_, hp⟩
        simp only [Bool.and_eq_true, beq_iff_eq] at hp
        exact sectionType_key_inj t' t (by rw [← hp.1, htk])
    · intro hmemAll
      simp only [allOtherLogs, List.mem_append, List.mem_filter, Bool.and_eq_true,
        beq_iff_eq] at hmemAll
      rcases hmemAll with
        (((((((((h | h) | h) | h) | h) | h) | h) | h) | h) | h) | h
      · rw [hunmark] at h; exact absurd h.2.2 (by decide)
      · rw [hunmark] at h; exact absurd h.2.2 (by decide)
      · rw [hunmark] at h; exact absurd h.2.2 (by decide)
      all_goals
        rcases huser with ht | ht | ht <;> rw [ht] at h <;>
          exact absurd h.2 (by decide)

/-- Concrete marked feat-type record. -/
def c1Marked : LogItem :=
  ⟨[⟨"h1", "H1"⟩], "feat", none, "secret", [], [], "details !nuf here"⟩

/-- Concrete unmarked impr-type record. -/
def c1Unmarked : LogItem :=
  ⟨[⟨"h2", "H2"⟩], "impr", none, "better", [], [], ""⟩

/-- Concrete record list holding both records above. -/
def c1Logs : List LogItem := [c1Marked, c1Unmarked]

theorem c1_marker_law_witness :
    strContains c1Marked.body "!nuf" = true ∧
    c1Marked ∈ allOtherLogs c1Logs ∧
    strStartsWith "### Nerd stuff" (buildFooter "o" "r" c1Logs) = true ∧
    (∀ t : SectionType, c1Marked ∉ sectionItems t c1Logs) ∧
    strContains c1Unmarked.body "!nuf" = false ∧
    c1Unmarked ∈ sectionItems SectionType.impr c1Logs ∧
    c1Unmarked ∉ allOtherLogs c1Logs := by
  have h1 := (c1_marker_law "o" "r" c1Logs c1Marked (by decide) (by decide)).1
    (by decide)
  have h2 := (c1_marker_law "o" "r" c1Logs c1Unmarked (by decide) (by decide)).2
    (by decide)
  rcases h2 with ⟨⟨t, htk, hmemS, _⟩, hnotAll⟩
  have ht : t = SectionType.impr := by
    have : t.key = SectionType.impr.key := by rw [htk]; rfl
    exact sectionType_key_inj _ _ this
  rw [ht] at hmemS
  exact ⟨by decide, h1.1, h1.2.2.1, h1.2.2.2, by decide, hmemS, hnotAll⟩

/-- C2: the footer-eligible records are the fixed-order concatenation of
the marked user-facing subsets and the internal-type subsets, and for
every footer-eligible record the deduplicated footer list retains
exactly the first record of that concatenation carrying its head full
hash, with all its metadata. -/
theorem c2_dedup_first_writer_wins (logs : List LogItem) (rec : LogItem)
    (hmem : rec ∈ allOtherLogs logs) :
    allOtherLogs logs =
      (logs.filter fun item => item.type == "feat" && strContains item.body "!nuf") ++
      (logs.filter fun item => item.type == "impr" && strContains item.body "!nuf") ++
      (logs.filter fun item => item.type == "fix" && strContains item.body "!nuf") ++
      (logs.filter fun item => item.type == "style") ++
      (logs.filter fun item => item.type == "docs") ++
      (logs.filter fun item => item.type == "refactor") ++
      (logs.filter fun item => item.type == "perf") ++
      (logs.filter fun item => item.type == "ci") ++
      (logs.filter fun item => item.type == "test") ++
      (logs.filter fun item => item.type == "build") ++
      (logs.filter fun item => item.type == "chore") ∧
    ∃ r0, (allOtherLogs logs).find?
        (fun t => fullHashHead t == fullHashHead rec) = some r0 ∧
      (uniqueOtherLogs logs).filter
        (fun t => fullHashHead t == fullHashHead rec) = [r0] := by
  refine ⟨rfl, ?_⟩
  have hsome : ((allOtherLogs logs).find?
      (fun t => fullHashHead t == fullHashHead rec)).isSome :=
    List.find?_isSome.mpr ⟨rec, hmem, beq_self_eq_true _⟩
  rcases Option.isSome_iff_exists.mp hsome with ⟨r0, hr0⟩
  refine ⟨r0, hr0, ?_⟩
  rw [uniqueOtherLogs, keepFirst_filter_eq, hr0]
  rfl

/-- Concrete docs-type record sharing its full hash with the chore
record below. -/
def c2DocsRec : LogItem :=
  ⟨[⟨"d1", "HH"⟩], "docs", none, "update readme", [], [], ""⟩

/-- Concrete chore-type record sharing its full hash with the docs
record above. -/
def c2ChoreRec : LogItem :=
  ⟨[⟨"d1", "HH"⟩], "chore", none, "update readme", [], [], ""⟩

/-- Concrete record list holding both records above. -/
def c2Logs : List LogItem := [c2DocsRec, c2ChoreRec]

theorem c2_dedup_first_writer_wins_witness :
    (∃ r0, (allOtherLogs c2Logs).find?
        (fun t => fullHashHead t == fullHashHead c2ChoreRec) = some r0 ∧
      (uniqueOtherLogs c2Logs).filter
        (fun t => fullHashHead t == fullHashHead c2ChoreRec) = [r0]) ∧
    allOtherLogs c2Logs = [c2DocsRec, c2ChoreRec] ∧
    uniqueOtherLogs c2Logs = [c2DocsRec] ∧
    buildFooter "o" "r" c2Logs =
      "### Nerd stuff\n\nThese changes will not be visible to users, but are included for completeness and to credit contributors.\n\n- **docs:** update readme ([d1](https://github.com/o/r/commit/HH))\n" :=
  ⟨(c2_dedup_first_writer_wins c2Logs c2ChoreRec (by decide)).2,
    by decide, by decide, by rfl⟩

theorem string_foldl_append (l : List String) (a : String) :
    l.foldl (fun x y => x ++ y) a = a ++ l.foldl (fun x y => x ++ y) "" := by
  induction l generalizing a with
  | nil => simp [String.append_empty]
  | cons s rest ih =>
    simp only [List.foldl_cons]
    rw [ih (a ++ s), ih ("" ++ s), String.empty_append, String.append_assoc]

theorem string_join_cons (s : String) (l : List String) :
    String.join (s :: l) = s ++ String.join l := by
  unfold String.join
  simp only [List.foldl_cons]
  rw [string_foldl_append l ("" ++ s), String.empty_append]

theorem foldl_line_shift (f : LogItem → String) (l : List LogItem) (a : String) :
    l.foldl (fun ret item => ret ++ f item) a =
      a ++ l.foldl (fun ret item => ret ++ f item) "" := by
  induction l generalizing a with
  | nil => simp [String.append_empty]
  | cons x xs ih =>
    simp only [List.foldl_cons]
    rw [ih (a ++ f x), ih ("" ++ f x), String.empty_append, String.append_assoc]

theorem buildItems_eq_join (owner repo : String) (items : List LogItem)
    (merge : Bool) :
    buildItems owner repo items merge =
      String.join (items.map (buildItemLine owner repo merge)) := by
  unfold buildItems
  induction items with
  | nil => rfl
  | cons item rest ih =>
    simp only [List.foldl_cons, List.map_cons]
    rw [string_join_cons,
      foldl_line_shift (buildItemLine owner repo merge) rest
        ("" ++ buildItemLine owner repo merge item),
      String.empty_append, ← ih]

/-- C9: each record is rendered as exactly one list line: an optional
bold scope prefix (the merged bold type-and-scope form when the footer
requests it), the message, a username group only when usernames are
present, a PR group of markdown pull links only when PRs are present,
and an always-present hash group listing every hash pair of the record
as a markdown commit link, terminated by a newline. -/
theorem c9_line_format (owner repo : String) (items : List LogItem)
    (merge : Bool) :
    buildItems owner repo items merge =
      String.join (items.map fun item =>
        "- " ++
        (if merge then
          "**" ++ item.type ++
            (item.scope.elim "" fun s => "(" ++ s ++ ")") ++ ":** "
        else item.scope.elim "" fun s => "**" ++ s ++ ":** ") ++
        item.message ++
        (if item.usernames = [] then ""
         else " (" ++ String.intercalate ", " item.usernames ++ ")") ++
        (if item.prs = [] then ""
         else " (" ++ String.intercalate ", " (item.prs.map fun p =>
           "[#" ++ jsReplaceFirst p "#" "" ++ "](https://github.com/" ++
             owner ++ "/" ++ repo ++ "/pull/" ++ jsReplaceFirst p "#" "" ++ ")") ++
           ")") ++
        (" (" ++ String.intercalate ", " (item.hashes.map fun hh =>
          "[" ++ hh.short ++ "](https://github.com/" ++ owner ++ "/" ++ repo ++
            "/commit/" ++ hh.full ++ ")") ++ ")") ++ "\n") := by
  rw [buildItems_eq_join]
  congr 1
  apply List.map_congr_left
  intro item _
  unfold buildItemLine getPrLink getCommitLink
  rcases item with ⟨hashes, ty, scope, message, usernames, prs, body⟩
  rcases scope with _ | sc <;> cases merge <;>
    rcases usernames with _ | ⟨u, us⟩ <;> rcases prs with _ | ⟨p, ps⟩ <;>
    simp [Option.elim, List.length_cons]

theorem c8_skip_or_fail_witness :
    convertStringToLog ["\r"] = .ok ([], []) ∧
    convertStringToLog [" "] =
      .error "TypeError: Cannot read properties of undefined (reading match)" :=
  ⟨(c8_skip_or_fail "\r").1 (Or.inr (Or.inl rfl)),
    (c8_skip_or_fail " ").2 (by decide) (by decide) (by decide) (by decide)⟩
